import Mathlib

/-!
Verification of the pugrs template compiler core (src/lex.rs, src/parse.rs,
src/render.rs) against its natural-language specification.

Modeling conventions:
* Rust `String`/`&str` values scanned by the lexer are modeled as `List Char`
  (the lexer iterates over `chars()`, i.e. Unicode scalar values); token
  payloads are Lean `String`s built from those character lists.
* `self.pos` counts characters consumed, as in the source (`consume_next`
  increments it once per `chars()` item).  Span lengths taken from Rust
  `str::len()` (`first_line.len()`, `name.len()`, `body.len()`) are modeled
  as character counts; for ASCII input, on which every concrete statement
  below operates, byte length and character count coincide.
* A Rust panic (a failing `unwrap`, or an out-of-bounds index) is modeled by
  an explicit `panicked`/`Option` outcome carrying the state reached so far.
* The `usize` subtraction `sz - level` in the outdent loop is modeled with
  release-profile wrapping semantics (`wrapSub`); a debug build would abort
  there, and no theorem below depends on the wrapped value.
* The scan loop of `Lexer::tokenize` and the mutually recursive parser
  functions are written with an explicit fuel argument so that they are
  structurally recursive and computable by kernel reduction; the public
  wrappers supply fuel larger than the number of loop iterations the Rust
  loops can perform (each iteration consumes at least one character resp.
  token).
-/

/-- Token kinds of `lex.rs` (`enum TokenType`). -/
inductive TokenType where
  | Doctype : String → TokenType
  | NewLine : TokenType
  | Tag : String → TokenType
  | Id : String → TokenType
  | Class : String → TokenType
  | Attr : String → String → TokenType
  | Text : String → TokenType
  | Colon : TokenType
  | Indent : TokenType
  | Outdent : TokenType
  | Slash : TokenType
  deriving DecidableEq

/-- A token with its span, `struct Token { ty, start, end }` of `lex.rs`.
The Rust field `end` is a Lean keyword and is rendered `end_`. -/
structure Token where
  ty : TokenType
  start : Nat
  end_ : Nat
  deriving DecidableEq

/-- The single-quote character, written via its code point to keep the
source free of quote-escape literals. -/
def squote : Char := Char.ofNat 39

/-- Rust `char::is_ascii_whitespace`: space, tab, LF, FF, CR. -/
def isAsciiWhitespace (c : Char) : Bool :=
  c == ' ' || c == '\t' || c == '\n' || c == '\x0c' || c == '\r'

/-- The name-character predicate of `Lexer::consume_name`:
`is_ascii_alphanumeric() || c == '-' || c == '_'`. -/
def isNameChar (c : Char) : Bool := c.isAlphanum || c == '-' || c == '_'

/-- `Lexer::add_token`: pushes `Token { ty, start, end: start + length }`. -/
def add_token (tokens : List Token) (ty : TokenType) (start length : Nat) :
    List Token :=
  tokens ++ [⟨ty, start, start + length⟩]

/-- `Lexer::consume_while`: consumes the maximal prefix satisfying `cond`,
returning `none` when that prefix is empty, together with the updated
position and the remaining characters. -/
def consume_while (cond : Char → Bool) (pos : Nat) (cs : List Char) :
    Option (List Char) × Nat × List Char :=
  let v := cs.takeWhile cond
  (if 0 < v.length then some v else none, pos + v.length, cs.dropWhile cond)

/-- `Lexer::consume_name`. -/
def consume_name (pos : Nat) (cs : List Char) :
    Option (List Char) × Nat × List Char :=
  consume_while isNameChar pos cs

/-- `Lexer::consume_whitespaces`. -/
def consume_whitespaces (pos : Nat) (cs : List Char) :
    Option (List Char) × Nat × List Char :=
  consume_while isAsciiWhitespace pos cs

/-- `Lexer::consume_line`: the characters up to a newline, plus the newline
itself when present. -/
def consume_line (pos : Nat) (cs : List Char) :
    Option (List Char) × Nat × List Char :=
  match consume_while (fun c => c != '\n') pos cs with
  | (some s, pos1, cs1) =>
    match cs1 with
    | c :: rest => (some (s ++ [c]), pos1 + 1, rest)
    | [] => (some s, pos1, cs1)
  | (none, pos1, cs1) => (none, pos1, cs1)

/-- `Lexer::consume_quoted`.  The outer `Option` is `none` exactly when the
Rust code panics: after the body scan it runs `self.consume_next(p)`, whose
`p.next().unwrap()` fails if the closing quote was never found before end of
input.  The inner `Option` is the Rust return value (`None` when the next
character is not a quote; nothing is consumed in that case). -/
def consume_quoted (pos : Nat) (cs : List Char) :
    Option (Option (List Char) × Nat × List Char) :=
  match cs with
  | c :: rest =>
    if c == '"' || c == squote then
      let body := rest.takeWhile (fun x => x != c)
      match rest.dropWhile (fun x => x != c) with
      | [] => none
      | _ :: rest2 => some (some body, pos + 1 + body.length + 1, rest2)
    else some (none, pos, cs)
  | [] => some (none, pos, cs)

/-- Wrapping `usize` subtraction (release profile), used for the
`sz - level` span arithmetic of the outdent loop. -/
def wrapSub (a b : Nat) : Nat := (2 ^ 64 + a - b) % 2 ^ 64

/-- The outdent `while` loop of `Lexer::tokenize` (lines 196-202):
`while level < sz && indents.len() > 0 { indents.pop(); sz = indents[last];
add_token(Outdent, sz, sz - level) }`.  The indent stack is modeled with its
top at the head.  The `none` outcome models the panic of
`indents[indents.len() - 1]` when the pop emptied the vector. -/
def outdentRun (level : Nat) (indents : List Nat) (tokens : List Token) :
    Option (List Nat) × List Token :=
  match indents with
  | [] => (some [], tokens)
  | sz :: tl =>
    if level < sz then
      match tl with
      | [] => (none, tokens)
      | sz2 :: _ =>
        outdentRun level tl (add_token tokens .Outdent sz2 (wrapSub sz2 level))
    else (some (sz :: tl), tokens)

/-- How the attribute-list loop (the inner `loop` of the `'('` arm) hands
control back to the outer scan loop. -/
inductive AttrExit where
  | contOuter : AttrExit
  | breakOuter : AttrExit
  | panicNow : AttrExit
  deriving DecidableEq

/-- State returned by the attribute-list loop. -/
structure AttrOut where
  pos : Nat
  tokens : List Token
  cs : List Char
  exit : AttrExit
  deriving DecidableEq

/-- The attribute-list loop of `Lexer::tokenize` (lines 246-304), entered
after consuming `'('`.
* exhausted input → "Closing parenthesis not found", `break 'outer` (the
  whole scan stops; `breakOuter`);
* `')'` → consume it and leave the loop (scan continues; `contOuter`);
* whitespace → skip it;
* an ASCII letter → one attribute: a name, then a value that is empty when
  the name is followed by whitespace, `=` plus whitespace, or end of input,
  is a quoted run after `="`/`='` (a missing closing quote panics inside
  `consume_quoted`), and otherwise is a run of non-whitespace non-`')'`
  characters (whose `unwrap` panics when that run is empty, e.g. on `(a=)`);
* any other character → `_ => break` (line 301) leaves only this inner loop
  without consuming the character, and the `continue` at line 304 resumes
  the outer scan at that same character (`contOuter`). -/
def attrLoop : Nat → Nat → List Token → List Char → AttrOut
  | 0, pos, tokens, cs => ⟨pos, tokens, cs, .panicNow⟩
  | fuel + 1, pos, tokens, cs =>
    match cs with
    | [] => ⟨pos, tokens, cs, .breakOuter⟩
    | c :: rest =>
      if c == ')' then ⟨pos + 1, tokens, rest, .contOuter⟩
      else if isAsciiWhitespace c then
        match consume_whitespaces pos cs with
        | (_, pos1, cs1) => attrLoop fuel pos1 tokens cs1
      else if c.isAlpha then
        match consume_name pos cs with
        | (none, pos1, cs1) => ⟨pos1, tokens, cs1, .panicNow⟩
        | (some name, pos1, cs1) =>
          match cs1 with
          | [] =>
            attrLoop fuel pos1
              (add_token tokens (.Attr ⟨name⟩ "") pos (pos1 - pos)) cs1
          | c2 :: rest2 =>
            if isAsciiWhitespace c2 then
              match consume_whitespaces pos1 cs1 with
              | (_, pos2, cs2) =>
                attrLoop fuel pos2
                  (add_token tokens (.Attr ⟨name⟩ "") pos (pos2 - pos)) cs2
            else if c2 == '=' then
              match rest2 with
              | [] =>
                attrLoop fuel (pos1 + 1)
                  (add_token tokens (.Attr ⟨name⟩ "") pos (pos1 + 1 - pos))
                  rest2
              | c3 :: _ =>
                if isAsciiWhitespace c3 then
                  match consume_whitespaces (pos1 + 1) rest2 with
                  | (_, pos2, cs2) =>
                    attrLoop fuel pos2
                      (add_token tokens (.Attr ⟨name⟩ "") pos (pos2 - pos)) cs2
                else if c3 == '"' || c3 == squote then
                  match consume_quoted (pos1 + 1) rest2 with
                  | none => ⟨pos1 + 1, tokens, rest2, .panicNow⟩
                  | some (some body, pos2, cs2) =>
                    attrLoop fuel pos2
                      (add_token tokens (.Attr ⟨name⟩ ⟨body⟩) pos (pos2 - pos))
                      cs2
                  | some (none, pos2, cs2) => ⟨pos2, tokens, cs2, .contOuter⟩
                else
                  match consume_while
                      (fun ch => !isAsciiWhitespace ch && ch != ')')
                      (pos1 + 1) rest2 with
                  | (none, pos2, cs2) => ⟨pos2, tokens, cs2, .panicNow⟩
                  | (some v, pos2, cs2) =>
                    attrLoop fuel pos2
                      (add_token tokens (.Attr ⟨name⟩ ⟨v⟩) pos (pos2 - pos)) cs2
            else
              attrLoop fuel pos1
                (add_token tokens (.Attr ⟨name⟩ "") pos (pos1 - pos)) cs1
      else ⟨pos, tokens, cs, .contOuter⟩

/-- Result of a lexer run: the tokens accumulated, the final scan position,
the final indent stack (top first; the Rust `Vec` keeps its top last), and
whether the run panicked instead of returning normally. -/
structure LexResult where
  tokens : List Token
  pos : Nat
  indents : List Nat
  panicked : Bool
  deriving DecidableEq

/-- The `'outer` scan loop of `Lexer::tokenize` (lines 156-327), dispatching
on the peeked character exactly as the Rust `match`:
* end of input → break;
* ASCII letter → `Tag` (name run);
* `'\n'` → `NewLine`, then measure the following run of spaces and compare
  with the top of the indent stack: greater → push and emit `Indent`;
  smaller → the outdent loop; equal → nothing;
* `' '`/`'|'` → inline text: the marker is the single character, or `'|'`
  plus one space; the lookahead `c_iter.peek().unwrap()` after a final `'|'`
  panics;
* `'#'`/`'.'` → `Id`/`Class` when a name run follows, otherwise no token;
* `'('` → the attribute-list loop;
* `'/'` → `Slash`;
* `':'` → `Colon`, consuming the colon and following spaces;
* anything else → unexpected character, break. -/
def tokenizeLoop : Nat → Nat → List Nat → List Token → List Char → LexResult
  | 0, pos, indents, tokens, _ => ⟨tokens, pos, indents, true⟩
  | fuel + 1, pos, indents, tokens, cs =>
    match cs with
    | [] => ⟨tokens, pos, indents, false⟩
    | c :: rest =>
      if c.isAlpha then
        match consume_name pos cs with
        | (some name, pos1, cs1) =>
          tokenizeLoop fuel pos1 indents
            (add_token tokens (.Tag ⟨name⟩) pos name.length) cs1
        | (none, pos1, _) => ⟨tokens, pos1, indents, true⟩
      else if c == '\n' then
        let tokens1 := add_token tokens .NewLine pos 1
        match consume_while (fun ch => ch == ' ') (pos + 1) rest with
        | (lvl, pos2, cs2) =>
          let level := match lvl with | some s => s.length | none => 0
          let prev := match indents with | [] => 0 | h :: _ => h
          if level > prev then
            tokenizeLoop fuel pos2 (level :: indents)
              (add_token tokens1 .Indent (pos + 1) level) cs2
          else if level < prev then
            match outdentRun level indents tokens1 with
            | (some indents2, tokens2) =>
              tokenizeLoop fuel pos2 indents2 tokens2 cs2
            | (none, tokens2) => ⟨tokens2, pos2, indents, true⟩
          else tokenizeLoop fuel pos2 indents tokens1 cs2
      else if c == ' ' || c == '|' then
        if c == '|' then
          match rest with
          | [] => ⟨tokens, pos + 1, indents, true⟩
          | c2 :: rest2 =>
            let marker : Nat × List Char × Nat :=
              if c2 == ' ' then (pos + 2, rest2, 2) else (pos + 1, rest, 1)
            match marker with
            | (pos1, cs1, len1) =>
              match consume_while (fun ch => ch != '\n') pos1 cs1 with
              | (some body, pos2, cs2) =>
                tokenizeLoop fuel pos2 indents
                  (add_token tokens (.Text ⟨body⟩) pos (len1 + body.length))
                  cs2
              | (none, pos2, cs2) => tokenizeLoop fuel pos2 indents tokens cs2
        else
          match consume_while (fun ch => ch != '\n') (pos + 1) rest with
          | (some body, pos2, cs2) =>
            tokenizeLoop fuel pos2 indents
              (add_token tokens (.Text ⟨body⟩) pos (1 + body.length)) cs2
          | (none, pos2, cs2) => tokenizeLoop fuel pos2 indents tokens cs2
      else if c == '#' then
        match consume_name (pos + 1) rest with
        | (some name, pos1, cs1) =>
          tokenizeLoop fuel pos1 indents
            (add_token tokens (.Id ⟨name⟩) pos (pos1 - pos)) cs1
        | (none, pos1, cs1) => tokenizeLoop fuel pos1 indents tokens cs1
      else if c == '.' then
        match consume_name (pos + 1) rest with
        | (some name, pos1, cs1) =>
          tokenizeLoop fuel pos1 indents
            (add_token tokens (.Class ⟨name⟩) pos (pos1 - pos)) cs1
        | (none, pos1, cs1) => tokenizeLoop fuel pos1 indents tokens cs1
      else if c == '(' then
        match attrLoop fuel (pos + 1) tokens rest with
        | ⟨pos2, tokens2, cs2, .contOuter⟩ =>
          tokenizeLoop fuel pos2 indents tokens2 cs2
        | ⟨pos2, tokens2, _, .breakOuter⟩ => ⟨tokens2, pos2, indents, false⟩
        | ⟨pos2, tokens2, _, .panicNow⟩ => ⟨tokens2, pos2, indents, true⟩
      else if c == '/' then
        tokenizeLoop fuel (pos + 1) indents (add_token tokens .Slash pos 1) rest
      else if c == ':' then
        let tokens1 := add_token tokens .Colon pos 1
        match consume_while (fun ch => ch == ' ') (pos + 1) rest with
        | (_, pos1, cs1) => tokenizeLoop fuel pos1 indents tokens1 cs1
      else ⟨tokens, pos, indents, false⟩

/-- `Lexer::tokenize`: the doctype special case for a first line starting
with `doctype html` (consumed whole, emitting `Doctype("html")` spanning the
first line), followed by the scan loop with the indent stack seeded `[0]`. -/
def tokenize (src : List Char) : LexResult :=
  let first_line := src.takeWhile (fun x => x != '\n')
  if ("doctype html".toList).isPrefixOf first_line then
    match consume_line 0 src with
    | (_, pos1, cs1) =>
      tokenizeLoop (src.length + 1) pos1 [0]
        (add_token [] (.Doctype "html") 0 first_line.length) cs1
  else tokenizeLoop (src.length + 1) 0 [0] [] src

mutual

/-- Node variants of `parse.rs` (`enum Node`), mutually defined with
`HTMLElement`. -/
inductive Node where
  | Empty : Node
  | Element : HTMLElement → Node
  | Text : String → Node
  | Comment : Node

/-- The element record of `parse.rs` (`struct HTMLElement`): name, ordered
attribute pairs, children. -/
inductive HTMLElement where
  | mk : String → List (String × String) → List Node → HTMLElement

end

/-- The `name` field of `HTMLElement`. -/
def HTMLElement.name : HTMLElement → String
  | .mk n _ _ => n

/-- The `attrs` field of `HTMLElement`. -/
def HTMLElement.attrs : HTMLElement → List (String × String)
  | .mk _ a _ => a

/-- The `children` field of `HTMLElement`. -/
def HTMLElement.children : HTMLElement → List Node
  | .mk _ _ c => c

/-- `HTMLElement::new`. -/
def HTMLElement.new (name : String) : HTMLElement := .mk name [] []

/-- `HTMLElement::push_attr` (also the direct `element.attrs.push` calls of
`create_element`). -/
def HTMLElement.push_attr : HTMLElement → String → String → HTMLElement
  | .mk nm a c, n, v => .mk nm (a ++ [(n, v)]) c

/-- `element.children.extend(..)` in `create_element`. -/
def HTMLElement.extend_children : HTMLElement → List Node → HTMLElement
  | .mk nm a c, ns => .mk nm a (c ++ ns)

/-- `struct Parser { tokens, index, nest }` of `parse.rs`. -/
structure Parser where
  tokens : List Token
  index : Nat
  nest : Nat

/-- `Parser::peek`. -/
def Parser.peek (p : Parser) : Option Token :=
  if h : p.index < p.tokens.length then some (p.tokens.get ⟨p.index, h⟩)
  else none

/-- `Parser::next`: the cursor advances only when a token remains. -/
def Parser.next (p : Parser) : Option Token × Parser :=
  if h : p.index < p.tokens.length then
    (some (p.tokens.get ⟨p.index, h⟩), { p with index := p.index + 1 })
  else (none, p)

/-- The state change of `Parser::next` alone (its token discarded). -/
def Parser.advance (p : Parser) : Parser := (p.next).2

mutual

/-- The modifier/child loop of `Parser::create_element` (lines 119-175),
with the element under construction as accumulator:
* `Id`/`Class`/`Attr` → consume, append to the attribute list;
* `Text` → consume, append a text child;
* `NewLine` → consume; stop if the next token is `NewLine` or `Tag` (or
  nothing), otherwise keep looping;
* `Indent` → consume, gather a whole block via `parse` as children
  (`nest` is bumped around the recursive call);
* `Colon` → consume, gather exactly one child via `parse_one`;
* `Outdent`/`Slash`/anything else → stop without consuming. -/
def Parser.create_element : Nat → HTMLElement → Parser → HTMLElement × Parser
  | 0, el, p => (el, p)
  | fuel + 1, el, p =>
    match p.peek with
    | none => (el, p)
    | some t =>
      match t.ty with
      | .Id v => Parser.create_element fuel (el.push_attr "id" v) p.advance
      | .Class v => Parser.create_element fuel (el.push_attr "class" v) p.advance
      | .Attr n v => Parser.create_element fuel (el.push_attr n v) p.advance
      | .Text b =>
        Parser.create_element fuel (el.extend_children [Node.Text b]) p.advance
      | .NewLine =>
        let p1 := p.advance
        match p1.peek with
        | some t2 =>
          match t2.ty with
          | .NewLine => (el, p1)
          | .Tag _ => (el, p1)
          | _ => Parser.create_element fuel el p1
        | none => (el, p1)
      | .Indent =>
        let p1 := { p.advance with nest := p.advance.nest + 1 }
        match Parser.parse fuel p1 with
        | (ns, p2) =>
          Parser.create_element fuel (el.extend_children ns)
            { p2 with nest := p2.nest - 1 }
      | .Colon =>
        let p1 := { p.advance with nest := p.advance.nest + 1 }
        match Parser.parse_one fuel p1 with
        | (n, p2) =>
          Parser.create_element fuel (el.extend_children [n])
            { p2 with nest := p2.nest - 1 }
      | .Outdent => (el, p)
      | .Slash => (el, p)
      | .Tag _ => (el, p)
      | .Doctype _ => (el, p)

/-- `Parser::parse_one` (lines 179-204): consume one token; `Text` gives a
text node, `Tag` an element, `Id`/`Class` an implicit `div` element whose
`id`/`class` attribute is pushed after `create_element` returns; any other
token is a parse error yielding `Node::Empty`. -/
def Parser.parse_one : Nat → Parser → Node × Parser
  | 0, p => (Node.Empty, p)
  | fuel + 1, p =>
    match p.next with
    | (none, p1) => (Node.Empty, p1)
    | (some t, p1) =>
      match t.ty with
      | .Text b => (Node.Text b, p1)
      | .Tag name =>
        match Parser.create_element fuel (HTMLElement.new name) p1 with
        | (el, p2) => (Node.Element el, p2)
      | .Id v =>
        match Parser.create_element fuel (HTMLElement.new "div") p1 with
        | (el, p2) => (Node.Element (el.push_attr "id" v), p2)
      | .Class v =>
        match Parser.create_element fuel (HTMLElement.new "div") p1 with
        | (el, p2) => (Node.Element (el.push_attr "class" v), p2)
      | _ => (Node.Empty, p1)

/-- `Parser::parse` (lines 206-229): the block loop; `Outdent` is consumed
and ends the block, `NewLine`/`Slash` are consumed and skipped, anything
else goes through `parse_one` and is appended. -/
def Parser.parse : Nat → Parser → List Node × Parser
  | 0, p => ([], p)
  | fuel + 1, p =>
    match p.peek with
    | none => ([], p)
    | some t =>
      match t.ty with
      | .Outdent => ([], p.advance)
      | .NewLine => Parser.parse fuel p.advance
      | .Slash => Parser.parse fuel p.advance
      | _ =>
        match Parser.parse_one fuel p with
        | (n, p1) =>
          match Parser.parse fuel p1 with
          | (ns, p2) => (n :: ns, p2)

end

/-- Running the parser from a fresh cursor, with fuel ample for the Rust
loops (each level of the call tree consumes at least one token every two
calls). -/
def Parser.run (ts : List Token) : List Node :=
  (Parser.parse (2 * ts.length + 2) ⟨ts, 0, 0⟩).1

/-- The void-element name match of `HTMLElement::render` (lines 50-52). -/
def isVoidName (n : String) : Bool :=
  n == "area" || n == "base" || n == "br" || n == "col" || n == "embed" ||
  n == "hr" || n == "img" || n == "input" || n == "link" || n == "meta" ||
  n == "param" || n == "source" || n == "track" || n == "wbr"

/-- `indent_unit.repeat(indent)`: two spaces per level. -/
def indentRep (d : Nat) : List Char :=
  match d with
  | 0 => []
  | d + 1 => ' ' :: ' ' :: indentRep d

/-- The attribute serialization loop of `HTMLElement::render`:
one ` name="value"` per attribute, in order, unescaped. -/
def attrsChars : List (String × String) → List Char
  | [] => []
  | (n, v) :: rest =>
    [' '] ++ n.toList ++ ['=', '"'] ++ v.toList ++ ['"'] ++ attrsChars rest

mutual

/-- `HTMLElement::render` (lines 30-79): indentation prefix, open tag with
attributes, a line break if the element has children or attributes, then —
for void element names — one more line break and nothing else, or otherwise
the rendered children followed by the closing tag line. -/
def HTMLElement.render : HTMLElement → Nat → List Char
  | .mk name attrs children, indent =>
    indentRep indent ++ ['<'] ++ name.toList ++ attrsChars attrs ++ ['>'] ++
    (if children.length > 0 || attrs.length > 0 then ['\n'] else []) ++
    (if isVoidName name then ['\n']
     else
       renderChildren children indent ++ indentRep indent ++ ['<', '/'] ++
       name.toList ++ ['>', '\n'])

/-- The child loop of `HTMLElement::render`: `Element` children recurse one
level deeper, `Text` children are an indented line, others are skipped. -/
def renderChildren : List Node → Nat → List Char
  | [], _ => []
  | n :: rest, indent =>
    (match n with
     | Node.Element e => e.render (indent + 1)
     | Node.Text body => indentRep (indent + 1) ++ body.toList ++ ['\n']
     | _ => []) ++ renderChildren rest indent

end

/-- `render::render` (render.rs): concatenate top-level elements rendered at
depth 0 and top-level text verbatim, skipping `Empty` and `Comment`. -/
def render : List Node → List Char
  | [] => []
  | Node.Element e :: rest => e.render 0 ++ render rest
  | Node.Text b :: rest => b.toList ++ render rest
  | Node.Empty :: rest => render rest
  | Node.Comment :: rest => render rest

/-- The composed pipeline described by the spec: lex, parse, render. -/
def compile (src : String) : List Char :=
  render (Parser.run (tokenize src.toList).tokens)

/-- Does a token mark an indentation increase? -/
def isIndentTok (t : Token) : Bool :=
  match t.ty with
  | .Indent => true
  | _ => false

/-- Does a token mark an indentation decrease? -/
def isOutdentTok (t : Token) : Bool :=
  match t.ty with
  | .Outdent => true
  | _ => false

/-- Number of `Indent` tokens in a token sequence. -/
def countIndent (ts : List Token) : Nat := ts.countP isIndentTok

/-- Number of `Outdent` tokens in a token sequence. -/
def countOutdent (ts : List Token) : Nat := ts.countP isOutdentTok

/-- Does a token carry a `Doctype` payload? -/
def isDoctypeTok (t : Token) : Bool :=
  match t.ty with
  | .Doctype _ => true
  | _ => false

/-- Number of `Doctype` tokens in a token sequence. -/
def countDoctype (ts : List Token) : Nat := ts.countP isDoctypeTok

/-- Replaying one token against a level stack (top at the head):
an `Indent` token pushes the level it carries in its span, but only when
that level strictly exceeds the current top; an `Outdent` token pops exactly
one entry, but only when a pop leaves the seed of the stack in place
(popping from a one-entry stack is an underflow); every other token leaves
the stack unchanged.  A failed check collapses the replay to `none`. -/
def replayStep (s : Option (List Nat)) (t : Token) : Option (List Nat) :=
  match s with
  | none => none
  | some st =>
    match t.ty with
    | .Indent =>
      match st with
      | h :: tl =>
        if h < t.end_ - t.start then some ((t.end_ - t.start) :: h :: tl)
        else none
      | [] => none
    | .Outdent =>
      match st with
      | _ :: h2 :: tl => some (h2 :: tl)
      | _ => none
    | _ => some st

/-- Replaying a token sequence against a level stack. -/
def replayFold (ts : List Token) (s : Option (List Nat)) : Option (List Nat) :=
  ts.foldl replayStep s

/-- The attribute list of the first parsed node, when it is an element. -/
def firstAttrs : List Node → List (String × String)
  | Node.Element e :: _ => e.attrs
  | _ => []

/-- Token kinds that `Parser::parse_one` rejects (everything but `Text`,
`Tag`, `Id`, `Class`). -/
def isUnexpectedTT : TokenType → Bool
  | .Text _ => false
  | .Tag _ => false
  | .Id _ => false
  | .Class _ => false
  | _ => true

/-- Token kinds that `Parser::parse` consumes itself instead of handing to
`parse_one` (`Outdent` ends the block, `NewLine`/`Slash` are skipped). -/
def isBlockSkipTT : TokenType → Bool
  | .Outdent => true
  | .NewLine => true
  | .Slash => true
  | _ => false

/-- Claim C9: there is an input — any input whose final character is `|`
with nothing after it, e.g. `"|"` or `"x|"` — on which `Lexer::tokenize`
panics (the `*c_iter.peek().unwrap()` lookahead after the `|`) instead of
terminating normally with a token list. -/
theorem pugrs_C9_panic_on_trailing_bar :
    (tokenize ("|".toList)).panicked = true ∧
    (tokenize ("x|".toList)).panicked = true :=
  ⟨rfl, rfl⟩

/-- Claim C5: in general, a `Colon` modifier makes `create_element` attach
exactly one child node, obtained via `parse_one` (never a block of
siblings): whenever the peeked token is a `Colon`, the loop consumes it and
continues with exactly the single node `parse_one` returns appended to the
children (first conjunct, for every element, parser state and fuel).
Concretely, parsing the token sequence of `a: b: c` yields exactly one
top-level node, an element `a` whose sole child is element `b` whose sole
child is element `c`. -/
theorem pugrs_C5_colon_chain :
    (∀ fuel el (p : Parser) t, p.peek = some t → t.ty = .Colon →
      Parser.create_element (fuel + 1) el p =
        Parser.create_element fuel
          (el.extend_children
            [(Parser.parse_one fuel
                { p.advance with nest := p.advance.nest + 1 }).1])
          (let p2 := (Parser.parse_one fuel
              { p.advance with nest := p.advance.nest + 1 }).2
           { p2 with nest := p2.nest - 1 })) ∧
    Parser.run (tokenize ("a: b: c".toList)).tokens =
      [Node.Element (.mk "a" []
        [Node.Element (.mk "b" [] [Node.Element (.mk "c" [] [])])])] := by
  refine ⟨?_, rfl⟩
  intro fuel el p t hp ht
  simp only [Parser.create_element, hp, ht]

/-- Witness for C5: an element `b` whose next tokens are `Colon, Tag "c"`
gains exactly the one child element `c`. -/
theorem pugrs_C5_witness :
    Parser.create_element 4 (HTMLElement.new "b")
        ⟨[⟨.Colon, 0, 1⟩, ⟨.Tag "c", 2, 3⟩], 0, 0⟩ =
      (HTMLElement.mk "b" [] [Node.Element (.mk "c" [] [])],
       ⟨[⟨.Colon, 0, 1⟩, ⟨.Tag "c", 2, 3⟩], 2, 0⟩) :=
  (pugrs_C5_colon_chain.1 3 (HTMLElement.new "b")
    ⟨[⟨.Colon, 0, 1⟩, ⟨.Tag "c", 2, 3⟩], 0, 0⟩ ⟨.Colon, 0, 1⟩ rfl rfl).trans
    rfl

/-- Claim C6 counterexample: `#foo.bar` does NOT parse with the attribute
list `id="foo"` then `class="bar"` that the claim (and `div#foo.bar`)
prescribes; `parse_one` runs `create_element("div")` first and pushes the
`id` attribute afterwards, so the actual order is `class` then `id`. -/
theorem pugrs_C6_counterexample :
    firstAttrs (Parser.run (tokenize ("#foo.bar".toList)).tokens) =
      [("class", "bar"), ("id", "foo")] ∧
    firstAttrs (Parser.run (tokenize ("#foo.bar".toList)).tokens) ≠
      [("id", "foo"), ("class", "bar")] :=
  ⟨rfl, by decide⟩

/-- Claim C6 amended: whenever `parse_one` consumes an `Id(name)` token, it
builds the implicit `div` through `create_element` first (which appends the
following modifiers' attributes in arrival order) and only then pushes
`id=name`, so the `id` attribute lands after the modifiers (first conjunct,
for every parser state and fuel; the second conjunct shows `push_attr`
appends at the end of the attribute list).  Concretely, `#foo.bar` yields
attributes `class="bar", id="foo"`, which differs from `div#foo.bar`'s
`id="foo", class="bar"`. -/
theorem pugrs_C6_amended_id_appended_last :
    (∀ fuel (p : Parser) t v p1, Parser.next p = (some t, p1) →
      t.ty = .Id v →
      Parser.parse_one (fuel + 1) p =
        (Node.Element
          ((Parser.create_element fuel (HTMLElement.new "div") p1).1.push_attr
            "id" v),
         (Parser.create_element fuel (HTMLElement.new "div") p1).2)) ∧
    (∀ e n v, (HTMLElement.push_attr e n v).attrs = e.attrs ++ [(n, v)]) ∧
    Parser.run (tokenize ("#foo.bar".toList)).tokens =
      [Node.Element (.mk "div" [("class", "bar"), ("id", "foo")] [])] ∧
    Parser.run (tokenize ("div#foo.bar".toList)).tokens =
      [Node.Element (.mk "div" [("id", "foo"), ("class", "bar")] [])] := by
  refine ⟨?_, ?_, rfl, rfl⟩
  · intro fuel p t v p1 hn ht
    simp only [Parser.parse_one, hn, ht]
  · intro e n v
    cases e
    rfl

/-- Witness for C6: consuming `Id "foo"` with a following `Class "bar"`
modifier produces the `div` with `class` first and `id` appended last. -/
theorem pugrs_C6_witness :
    Parser.parse_one 4 ⟨[⟨.Id "foo", 0, 4⟩, ⟨.Class "bar", 4, 8⟩], 0, 0⟩ =
      (Node.Element (.mk "div" [("class", "bar"), ("id", "foo")] []),
       ⟨[⟨.Id "foo", 0, 4⟩, ⟨.Class "bar", 4, 8⟩], 2, 0⟩) :=
  (pugrs_C6_amended_id_appended_last.1 3
    ⟨[⟨.Id "foo", 0, 4⟩, ⟨.Class "bar", 4, 8⟩], 0, 0⟩ ⟨.Id "foo", 0, 4⟩ "foo"
    ⟨[⟨.Id "foo", 0, 4⟩, ⟨.Class "bar", 4, 8⟩], 1, 0⟩ rfl rfl).trans rfl

/-- Claim C1 counterexample: on the input `"a\n b"` (which ends while still
indented) the lexer emits one `Indent` token and no `Outdent` token, so the
two counts differ. -/
theorem pugrs_C1_counterexample :
    countIndent (tokenize ("a\n b".toList)).tokens = 1 ∧
    countOutdent (tokenize ("a\n b".toList)).tokens = 0 ∧
    countIndent (tokenize ("a\n b".toList)).tokens ≠
      countOutdent (tokenize ("a\n b".toList)).tokens :=
  ⟨rfl, rfl, by decide⟩

/-- Claim C7 counterexample: the first line `doctype foo` has the form
`doctype <rest>`, but `Lexer::tokenize` emits no `Doctype` token for it at
all (the code tests `starts_with("doctype html")`); the line is re-scanned
as `Tag("doctype")` followed by `Text("foo")`. -/
theorem pugrs_C7_counterexample :
    (tokenize ("doctype foo".toList)).tokens =
      [⟨.Tag "doctype", 0, 7⟩, ⟨.Text "foo", 7, 11⟩] ∧
    ((tokenize ("doctype foo".toList)).tokens.filter isDoctypeTok).length
      = 0 :=
  ⟨rfl, rfl⟩

/-- Claim C3: behavior at the two unterminated-construct conditions.  An
attribute list whose `)` is missing at end of input stops the scan and the
tokens produced so far are returned (`panicked = false`, here one `Attr`
token for input `(a`).  But an unterminated quoted attribute value does NOT
return: `consume_quoted` unwraps a missing character and panics (input
`(a="x`), so no token list flows back to the caller. -/
theorem pugrs_C3_unterminated_behavior :
    tokenize ("(a".toList) =
      ⟨[⟨.Attr "a" "", 1, 2⟩], 2, [0], false⟩ ∧
    (tokenize ("(a=\"x".toList)).panicked = true ∧
    (tokenize ("(a=\"x".toList)).tokens = [] :=
  ⟨rfl, rfl, rfl⟩

/-- Claim C4: for every element whose name is a void-element name,
`HTMLElement::render` emits only the open tag with its attributes (plus the
conditional line break after `>` and the void-case line break): no child is
rendered even when the children list is non-empty, and no closing tag is
emitted.  Concretely, `img(src="x.png")` compiles to the single line
`<img src="x.png">` (followed by the two line breaks the renderer always
appends for an attributed void element), and the output is unchanged even
when the template nests content beneath the `img`. -/
theorem pugrs_C4_void_render :
    (∀ name attrs children d, isVoidName name = true →
      HTMLElement.render (.mk name attrs children) d =
        indentRep d ++ ['<'] ++ name.toList ++ attrsChars attrs ++ ['>'] ++
        (if children.length > 0 || attrs.length > 0 then ['\n'] else []) ++
        ['\n']) ∧
    compile "img(src=\"x.png\")" = ("<img src=\"x.png\">\n\n").toList ∧
    compile "img(src=\"x.png\")\n  p" = ("<img src=\"x.png\">\n\n").toList := by
  refine ⟨?_, rfl, rfl⟩
  intro name attrs children d h
  simp [HTMLElement.render, h]

/-- Witness for C4: the void element `br` with no attributes and no
children renders as `<br>` plus the single void line break. -/
theorem pugrs_C4_void_render_witness :
    HTMLElement.render (.mk "br" [] []) 0 = ("<br>\n").toList :=
  (pugrs_C4_void_render.1 "br" [] [] 0 rfl).trans rfl

/-- When `peek` sees a token, `next` returns that token and the advanced
cursor. -/
theorem Parser.next_of_peek (p : Parser) (t : Token) (h : p.peek = some t) :
    p.next = (some t, p.advance) := by
  by_cases hlt : p.index < p.tokens.length
  · simp [Parser.peek, hlt] at h
    simp [Parser.next, Parser.advance, hlt, h]
  · simp [Parser.peek, hlt] at h

/-- `parse_one` on any token kind other than `Text`, `Tag`, `Id`, `Class`
returns `Node::Empty`, consuming exactly that one token. -/
theorem parse_one_unexpected (fuel : Nat) (p : Parser) (t : Token)
    (p1 : Parser) (h : p.next = (some t, p1)) (h2 : isUnexpectedTT t.ty = true) :
    Parser.parse_one (fuel + 1) p = (Node.Empty, p1) := by
  rcases t with ⟨ty, s, e⟩
  cases ty <;> simp_all [Parser.parse_one, isUnexpectedTT]

/-- Claim C8: when `Parser::parse_one` consumes a token that is not `Text`,
`Tag`, `Id` or `Class`, it returns `Node::Empty` for that construct, and the
enclosing `Parser::parse` loop appends the empty node and continues with the
remaining tokens instead of aborting (shown both in general and on the
concrete token sequence `Colon, Tag "a"`). -/
theorem pugrs_C8_unexpected_token_recovery :
    (∀ fuel p t p1, Parser.next p = (some t, p1) →
      isUnexpectedTT t.ty = true →
      Parser.parse_one (fuel + 1) p = (Node.Empty, p1)) ∧
    (∀ fuel p t, Parser.peek p = some t → isUnexpectedTT t.ty = true →
      isBlockSkipTT t.ty = false →
      Parser.parse (fuel + 2) p =
        (Node.Empty :: (Parser.parse (fuel + 1) p.advance).1,
         (Parser.parse (fuel + 1) p.advance).2)) ∧
    Parser.run [⟨.Colon, 0, 1⟩, ⟨.Tag "a", 2, 3⟩] =
      [Node.Empty, Node.Element (.mk "a" [] [])] := by
  refine ⟨fun fuel p t p1 h h2 => parse_one_unexpected fuel p t p1 h h2,
    ?_, rfl⟩
  intro fuel p t hp h2 h3
  have hone := parse_one_unexpected fuel p t p.advance
    (Parser.next_of_peek p t hp) h2
  show Parser.parse (fuel + 1 + 1) p = _
  rcases t with ⟨ty, s, e⟩
  cases hpr : Parser.parse (fuel + 1) p.advance with
  | mk ns p2 => cases ty <;> simp_all [Parser.parse, isUnexpectedTT, isBlockSkipTT]

/-- Witness for C8: a `Colon` token where an element was expected yields
`Node::Empty` with the cursor advanced past it. -/
theorem pugrs_C8_witness :
    Parser.parse_one 1 ⟨[⟨.Colon, 0, 1⟩], 0, 0⟩ =
      (Node.Empty, ⟨[⟨.Colon, 0, 1⟩], 1, 0⟩) :=
  pugrs_C8_unexpected_token_recovery.1 0 ⟨[⟨.Colon, 0, 1⟩], 0, 0⟩
    ⟨.Colon, 0, 1⟩ ⟨[⟨.Colon, 0, 1⟩], 1, 0⟩ rfl rfl

/-- Claim C10: a `#` or `.` that is not followed by a name character
(ASCII alphanumeric, `-`, `_`) is consumed by the scan loop without emitting
any token, and scanning continues with the rest of the input; in particular
`tokenize "#"` and `tokenize "."` return empty token lists, and in
`"#.a-b"` the bare `#` is skipped while the `.a-b` still lexes. -/
theorem pugrs_C10_bare_hash_dot :
    (∀ fuel pos ind tok (c : Char) (rest : List Char),
      (c = '#' ∨ c = '.') →
      (∀ c2, rest.head? = some c2 → isNameChar c2 = false) →
      tokenizeLoop (fuel + 1) pos ind tok (c :: rest) =
        tokenizeLoop fuel (pos + 1) ind tok rest) ∧
    tokenize ("#".toList) = ⟨[], 1, [0], false⟩ ∧
    tokenize (".".toList) = ⟨[], 1, [0], false⟩ ∧
    (tokenize ("#.a-b".toList)).tokens = [⟨.Class "a-b", 1, 5⟩] := by
  refine ⟨?_, rfl, rfl, rfl⟩
  intro fuel pos ind tok c rest hc h2
  have htw : rest.takeWhile isNameChar = [] := by
    cases rest with
    | nil => rfl
    | cons c2 r2 => simp [List.takeWhile, h2 c2 rfl]
  have hdw : rest.dropWhile isNameChar = rest := by
    cases rest with
    | nil => rfl
    | cons c2 r2 => simp [List.dropWhile, h2 c2 rfl]
  rcases hc with hc | hc <;> subst hc <;>
    simp [tokenizeLoop, consume_name, consume_while, htw, hdw]

/-- Witness for C10: a lone `#` at the end of input is consumed and the
scan proceeds with nothing left. -/
theorem pugrs_C10_witness :
    tokenizeLoop 1 0 [0] [] ['#'] = tokenizeLoop 0 1 [0] [] [] :=
  pugrs_C10_bare_hash_dot.1 0 0 [0] [] '#' [] (Or.inl rfl)
    (fun c2 h => by simp at h)

/-- Replaying `ts ++ [t]` is replaying `ts` and then stepping on `t`. -/
theorem replayFold_concat (ts : List Token) (t : Token)
    (s : Option (List Nat)) :
    replayFold (ts ++ [t]) s = replayStep (replayFold ts s) t := by
  simp [replayFold, List.foldl_append]

/-- A failed replay stays failed. -/
theorem replayFold_none (ts : List Token) : replayFold ts none = none := by
  induction ts with
  | nil => rfl
  | cons t ts ih => simpa [replayFold, replayStep] using ih

/-- Every token appended by the attribute-list loop is an `Attr` token, so
the loop leaves a replay state unchanged. -/
theorem attrLoop_replay (fuel : Nat) :
    ∀ pos tok cs s, replayFold (attrLoop fuel pos tok cs).tokens s =
      replayFold tok s := by
  induction fuel with
  | zero => intro pos tok cs s; simp [attrLoop]
  | succ f ih =>
    intro pos tok cs s
    cases cs with
    | nil => simp [attrLoop]
    | cons c rest =>
      simp only [attrLoop]
      repeat' split
      all_goals
        first
          | simp
          | (rw [ih]; simp [add_token, replayFold_concat, replayStep]
             all_goals (cases replayFold tok s <;> rfl))
          | rw [ih]

/-- The outdent loop keeps the replay of the emitted tokens in lockstep with
the lexer's indent stack: when it returns normally the tokens replay to the
final stack (which is nonempty), and when it panics the tokens replay to the
one-entry stack that the fatal pop was about to empty. -/
theorem outdentRun_replay (level : Nat) :
    ∀ ind tok, ind ≠ [] → replayFold tok (some [0]) = some ind →
      ∃ s, s ≠ [] ∧ replayFold (outdentRun level ind tok).2 (some [0]) = some s ∧
        ((outdentRun level ind tok).1 = none ∨
         (outdentRun level ind tok).1 = some s) := by
  intro ind
  induction ind with
  | nil => intro tok h; exact absurd rfl h
  | cons sz tl ih =>
    intro tok hne hm
    by_cases hlt : level < sz
    · cases tl with
      | nil =>
        refine ⟨[sz], by simp, ?_, Or.inl ?_⟩ <;> simp [outdentRun, hlt]
        exact hm
      | cons sz2 tl2 =>
        have hm2 : replayFold
            (add_token tok .Outdent sz2 (wrapSub sz2 level)) (some [0]) =
            some (sz2 :: tl2) := by
          rw [add_token, replayFold_concat, hm]; rfl
        obtain ⟨s, hs1, hs2, hs3⟩ := ih (add_token tok .Outdent sz2
          (wrapSub sz2 level)) (by simp) hm2
        refine ⟨s, hs1, ?_, ?_⟩ <;> simp only [outdentRun, if_pos hlt] <;>
          assumption
    · exact ⟨sz :: tl, hne, by simp [outdentRun, hlt, hm],
        Or.inr (by simp [outdentRun, hlt])⟩

/-- When the outdent loop returns normally, the new top of the indent stack
is at most the measured level of the new line: the pops repeat exactly until
`level < sz` fails. -/
theorem outdentRun_stop (level : Nat) :
    ∀ ind tok ind2 tok2, outdentRun level ind tok = (some ind2, tok2) →
      ∀ a, ind2.head? = some a → a ≤ level := by
  intro ind
  induction ind with
  | nil =>
    intro tok ind2 tok2 h a ha
    simp [outdentRun] at h
    simp_all
  | cons sz tl ih =>
    intro tok ind2 tok2 h a ha
    by_cases hlt : level < sz
    · cases tl with
      | nil => simp [outdentRun, hlt] at h
      | cons sz2 tl2 =>
        simp only [outdentRun, if_pos hlt] at h
        exact ih _ _ _ h a ha
    · simp [outdentRun, hlt] at h
      obtain ⟨h1, h2⟩ := h
      subst h1
      simp at ha
      omega

/-- Master invariant of the scan loop: if the tokens accumulated so far
replay (from the seed stack `[0]`) exactly to the current indent stack, then
the tokens accumulated by the rest of the run replay to some nonempty
stack — whether the run ends normally or panics. -/
theorem tokenizeLoop_replay (fuel : Nat) :
    ∀ pos ind tok cs, ind ≠ [] → replayFold tok (some [0]) = some ind →
      ∃ s, replayFold (tokenizeLoop fuel pos ind tok cs).tokens (some [0]) =
        some s ∧ s ≠ [] := by
  induction fuel with
  | zero =>
    intro pos ind tok cs hne hm
    exact ⟨ind, by simpa [tokenizeLoop] using hm, hne⟩
  | succ f ih =>
    intro pos ind tok cs hne hm
    cases ind with
    | nil => exact absurd rfl hne
    | cons ph pt =>
    cases cs with
    | nil => exact ⟨ph :: pt, by simpa [tokenizeLoop] using hm, hne⟩
    | cons c rest =>
      by_cases h1 : c.isAlpha
      · rcases hcn : consume_name pos (c :: rest) with ⟨onm, pos1, cs1⟩
        simp only [tokenizeLoop, h1, if_true, hcn]
        cases onm with
        | some name =>
          exact ih _ _ _ _ hne
            (by rw [add_token, replayFold_concat, hm]; rfl)
        | none => exact ⟨ph :: pt, hm, hne⟩
      · by_cases h2 : c == '\n'
        · rcases hcw : consume_while (fun ch => ch == ' ') (pos + 1) rest
            with ⟨lvl, pos2, cs2⟩
          simp only [tokenizeLoop, h1, h2, hcw, Bool.false_eq_true,
            if_false, if_true]
          have hm1 : replayFold (add_token tok .NewLine pos 1) (some [0]) =
              some (ph :: pt) := by
            rw [add_token, replayFold_concat, hm]; rfl
          generalize (match lvl with | some s => s.length | none => 0) = L
          split_ifs with hgt hlt
          · refine ih _ _ _ _ (by simp) ?_
            rw [add_token, replayFold_concat, hm1]
            simp [replayStep, Nat.add_sub_cancel_left, hgt]
          · obtain ⟨s, hs1, hs2, hs3⟩ :=
              outdentRun_replay L
                (ph :: pt) (add_token tok .NewLine pos 1) (by simp) hm1
            rcases hor : outdentRun L
                (ph :: pt) (add_token tok .NewLine pos 1) with ⟨oi, otok⟩
            rw [hor] at hs2 hs3
            cases oi with
            | some ind2 =>
              rcases hs3 with h | h
              · simp at h
              · simp at h
                subst h
                exact ih _ _ _ _ hs1 hs2
            | none => exact ⟨s, hs2, hs1⟩
          · exact ih _ _ _ _ hne hm1
        · by_cases h3 : c == ' ' || c == '|'
          · simp only [tokenizeLoop, h1, h2, h3, Bool.false_eq_true,
              if_false, if_true]
            by_cases h4 : c == '|'
            · simp only [h4, if_true]
              cases rest with
              | nil => exact ⟨ph :: pt, hm, hne⟩
              | cons c2 rest2 =>
                by_cases h5 : c2 == ' '
                · simp only [h5, if_true]
                  rcases hcw : consume_while (fun ch => ch != '\n')
                      (pos + 2) rest2 with ⟨ob, pos3, cs3⟩
                  cases ob with
                  | some body =>
                    exact ih _ _ _ _ hne
                      (by rw [add_token, replayFold_concat, hm]; rfl)
                  | none => exact ih _ _ _ _ hne hm
                · simp only [h5, Bool.false_eq_true, if_false]
                  rcases hcw : consume_while (fun ch => ch != '\n')
                      (pos + 1) (c2 :: rest2) with ⟨ob, pos3, cs3⟩
                  cases ob with
                  | some body =>
                    exact ih _ _ _ _ hne
                      (by rw [add_token, replayFold_concat, hm]; rfl)
                  | none => exact ih _ _ _ _ hne hm
            · simp only [h4, Bool.false_eq_true, if_false]
              rcases hcw : consume_while (fun ch => ch != '\n')
                  (pos + 1) rest with ⟨ob, pos3, cs3⟩
              cases ob with
              | some body =>
                exact ih _ _ _ _ hne
                  (by rw [add_token, replayFold_concat, hm]; rfl)
              | none => exact ih _ _ _ _ hne hm
          · by_cases h5 : c == '#'
            · rcases hcn : consume_name (pos + 1) rest with ⟨onm, pos1, cs1⟩
              simp only [tokenizeLoop, h1, h2, h3, h5, Bool.false_eq_true,
                if_false, if_true, hcn]
              cases onm with
              | some name =>
                exact ih _ _ _ _ hne
                  (by rw [add_token, replayFold_concat, hm]; rfl)
              | none => exact ih _ _ _ _ hne hm
            · by_cases h6 : c == '.'
              · rcases hcn : consume_name (pos + 1) rest with ⟨onm, pos1, cs1⟩
                simp only [tokenizeLoop, h1, h2, h3, h5, h6,
                  Bool.false_eq_true, if_false, if_true, hcn]
                cases onm with
                | some name =>
                  exact ih _ _ _ _ hne
                    (by rw [add_token, replayFold_concat, hm]; rfl)
                | none => exact ih _ _ _ _ hne hm
              · by_cases h7 : c == '('
                · rcases hal : attrLoop f (pos + 1) tok rest
                    with ⟨pos2, tok2, cs2, ex⟩
                  have hrep := attrLoop_replay f (pos + 1) tok rest (some [0])
                  rw [hal, hm] at hrep
                  simp only [tokenizeLoop, h1, h2, h3, h5, h6, h7,
                    Bool.false_eq_true, if_false, if_true, hal]
                  cases ex with
                  | contOuter => exact ih _ _ _ _ hne hrep
                  | breakOuter => exact ⟨ph :: pt, hrep, hne⟩
                  | panicNow => exact ⟨ph :: pt, hrep, hne⟩
                · by_cases h8 : c == '/'
                  · simp only [tokenizeLoop, h1, h2, h3, h5, h6, h7, h8,
                      Bool.false_eq_true, if_false, if_true]
                    exact ih _ _ _ _ hne
                      (by rw [add_token, replayFold_concat, hm]; rfl)
                  · by_cases h9 : c == ':'
                    · rcases hcw : consume_while (fun ch => ch == ' ')
                          (pos + 1) rest with ⟨ob, pos1, cs1⟩
                      simp only [tokenizeLoop, h1, h2, h3, h5, h6, h7, h8,
                        h9, Bool.false_eq_true, if_false, if_true, hcw]
                      exact ih _ _ _ _ hne
                        (by rw [add_token, replayFold_concat, hm]; rfl)
                    · simp only [tokenizeLoop, h1, h2, h3, h5, h6, h7, h8,
                        h9, Bool.false_eq_true, if_false, if_true]
                      exact ⟨ph :: pt, hm, hne⟩

/-- The attribute-list loop only ever appends tokens. -/
theorem attrLoop_tokens_mono (fuel : Nat) :
    ∀ pos tok cs, tok <+: (attrLoop fuel pos tok cs).tokens := by
  induction fuel with
  | zero => intro pos tok cs; exact List.prefix_rfl
  | succ f ih =>
    intro pos tok cs
    cases cs with
    | nil => exact List.prefix_rfl
    | cons c rest =>
      simp only [attrLoop]
      repeat' split
      all_goals
        first
          | exact List.prefix_rfl
          | exact ih _ _ _
          | exact List.IsPrefix.trans (by simp [add_token]) (ih _ _ _)

/-- The outdent loop only ever appends tokens. -/
theorem outdentRun_tokens_mono (level : Nat) :
    ∀ ind tok, tok <+: (outdentRun level ind tok).2 := by
  intro ind
  induction ind with
  | nil => intro tok; exact List.prefix_rfl
  | cons sz tl ih =>
    intro tok
    simp only [outdentRun]
    repeat' split
    all_goals
      first
        | exact List.prefix_rfl
        | exact List.IsPrefix.trans (by simp [add_token]) (ih _)

/-- The scan loop only ever appends tokens: the tokens already accumulated
stay as a prefix of the result. -/
theorem tokenizeLoop_tokens_mono (fuel : Nat) :
    ∀ pos ind tok cs, tok <+: (tokenizeLoop fuel pos ind tok cs).tokens := by
  induction fuel with
  | zero => intro pos ind tok cs; exact List.prefix_rfl
  | succ f ih =>
    intro pos ind tok cs
    cases cs with
    | nil => exact List.prefix_rfl
    | cons c rest =>
      by_cases h1 : c.isAlpha
      · rcases hcn : consume_name pos (c :: rest) with ⟨onm, pos1, cs1⟩
        simp only [tokenizeLoop, h1, if_true, hcn]
        cases onm with
        | some name =>
          exact List.IsPrefix.trans (by simp [add_token]) (ih _ _ _ _)
        | none => exact List.prefix_rfl
      · by_cases h2 : c == '\n'
        · rcases hcw : consume_while (fun ch => ch == ' ') (pos + 1) rest
            with ⟨lvl, pos2, cs2⟩
          simp only [tokenizeLoop, h1, h2, hcw, Bool.false_eq_true,
            if_false, if_true]
          have hpre1 : tok <+: add_token tok .NewLine pos 1 := by
            simp [add_token]
          generalize (match lvl with | some s => s.length | none => 0) = L
          split_ifs with hgt hlt
          · exact List.IsPrefix.trans
              (List.IsPrefix.trans hpre1 (by simp [add_token])) (ih _ _ _ _)
          · have hop := outdentRun_tokens_mono L ind
              (add_token tok .NewLine pos 1)
            rcases hor : outdentRun L ind (add_token tok .NewLine pos 1)
              with ⟨oi, otok⟩
            rw [hor] at hop
            cases oi with
            | some ind2 =>
              exact List.IsPrefix.trans (List.IsPrefix.trans hpre1 hop)
                (ih _ _ _ _)
            | none => exact List.IsPrefix.trans hpre1 hop
          · exact List.IsPrefix.trans hpre1 (ih _ _ _ _)
        · by_cases h3 : c == ' ' || c == '|'
          · simp only [tokenizeLoop, h1, h2, h3, Bool.false_eq_true,
              if_false, if_true]
            by_cases h4 : c == '|'
            · simp only [h4, if_true]
              cases rest with
              | nil => exact List.prefix_rfl
              | cons c2 rest2 =>
                by_cases h5 : c2 == ' '
                · simp only [h5, if_true]
                  rcases hcw : consume_while (fun ch => ch != '\n')
                      (pos + 2) rest2 with ⟨ob, pos3, cs3⟩
                  cases ob with
                  | some body =>
                    exact List.IsPrefix.trans (by simp [add_token])
                      (ih _ _ _ _)
                  | none => exact ih _ _ _ _
                · simp only [h5, Bool.false_eq_true, if_false]
                  rcases hcw : consume_while (fun ch => ch != '\n')
                      (pos + 1) (c2 :: rest2) with ⟨ob, pos3, cs3⟩
                  cases ob with
                  | some body =>
                    exact List.IsPrefix.trans (by simp [add_token])
                      (ih _ _ _ _)
                  | none => exact ih _ _ _ _
            · simp only [h4, Bool.false_eq_true, if_false]
              rcases hcw : consume_while (fun ch => ch != '\n')
                  (pos + 1) rest with ⟨ob, pos3, cs3⟩
              cases ob with
              | some body =>
                exact List.IsPrefix.trans (by simp [add_token]) (ih _ _ _ _)
              | none => exact ih _ _ _ _
          · by_cases h5 : c == '#'
            · rcases hcn : consume_name (pos + 1) rest with ⟨onm, pos1, cs1⟩
              simp only [tokenizeLoop, h1, h2, h3, h5, Bool.false_eq_true,
                if_false, if_true, hcn]
              cases onm with
              | some name =>
                exact List.IsPrefix.trans (by simp [add_token]) (ih _ _ _ _)
              | none => exact ih _ _ _ _
            · by_cases h6 : c == '.'
              · rcases hcn : consume_name (pos + 1) rest with ⟨onm, pos1, cs1⟩
                simp only [tokenizeLoop, h1, h2, h3, h5, h6,
                  Bool.false_eq_true, if_false, if_true, hcn]
                cases onm with
                | some name =>
                  exact List.IsPrefix.trans (by simp [add_token]) (ih _ _ _ _)
                | none => exact ih _ _ _ _
              · by_cases h7 : c == '('
                · rcases hal : attrLoop f (pos + 1) tok rest
                    with ⟨pos2, tok2, cs2, ex⟩
                  have hap := attrLoop_tokens_mono f (pos + 1) tok rest
                  rw [hal] at hap
                  simp only [tokenizeLoop, h1, h2, h3, h5, h6, h7,
                    Bool.false_eq_true, if_false, if_true, hal]
                  cases ex with
                  | contOuter => exact List.IsPrefix.trans hap (ih _ _ _ _)
                  | breakOuter => exact hap
                  | panicNow => exact hap
                · by_cases h8 : c == '/'
                  · simp only [tokenizeLoop, h1, h2, h3, h5, h6, h7, h8,
                      Bool.false_eq_true, if_false, if_true]
                    exact List.IsPrefix.trans (by simp [add_token])
                      (ih _ _ _ _)
                  · by_cases h9 : c == ':'
                    · rcases hcw : consume_while (fun ch => ch == ' ')
                          (pos + 1) rest with ⟨ob, pos1, cs1⟩
                      simp only [tokenizeLoop, h1, h2, h3, h5, h6, h7, h8,
                        h9, Bool.false_eq_true, if_false, if_true, hcw]
                      exact List.IsPrefix.trans (by simp [add_token])
                        (ih _ _ _ _)
                    · simp only [tokenizeLoop, h1, h2, h3, h5, h6, h7, h8,
                        h9, Bool.false_eq_true, if_false, if_true]
                      exact List.prefix_rfl

/-- Stepping the replay through a token sequence relates the stack lengths
to the Indent/Outdent counts: each Indent grows the stack by one, each
Outdent shrinks it by one, nothing else touches it. -/
theorem replayFold_length (ts : List Token) :
    ∀ st st', replayFold ts (some st) = some st' →
      st'.length + countOutdent ts = st.length + countIndent ts := by
  induction ts with
  | nil =>
    intro st st' h
    simp [replayFold] at h
    subst h
    simp [countIndent, countOutdent]
  | cons t ts ih =>
    intro st st' h
    have hcons : replayFold (t :: ts) (some st) =
        replayFold ts (replayStep (some st) t) := rfl
    rw [hcons] at h
    cases hstep : replayStep (some st) t with
    | none => rw [hstep, replayFold_none] at h; exact absurd h (by simp)
    | some st2 =>
      rw [hstep] at h
      have hih := ih st2 st' h
      rcases t with ⟨ty, a, b⟩
      cases ty
      case Indent =>
        cases st with
        | nil => simp [replayStep] at hstep
        | cons sh stl =>
          simp only [replayStep] at hstep
          split at hstep
          · simp only [Option.some.injEq] at hstep
            subst hstep
            simp [countIndent, countOutdent, List.countP_cons, isIndentTok,
              isOutdentTok] at hih ⊢
            omega
          · simp at hstep
      case Outdent =>
        cases st with
        | nil => simp [replayStep] at hstep
        | cons sh stl =>
          cases stl with
          | nil => simp [replayStep] at hstep
          | cons s2 stl2 =>
            simp only [replayStep, Option.some.injEq] at hstep
            subst hstep
            simp [countIndent, countOutdent, List.countP_cons, isIndentTok,
              isOutdentTok] at hih ⊢
            omega
      all_goals
        simp only [replayStep, Option.some.injEq] at hstep
        subst hstep
        simp [countIndent, countOutdent, List.countP_cons, isIndentTok,
          isOutdentTok] at hih ⊢
        omega

/-- The replay never empties a nonempty stack. -/
theorem replayFold_ne_nil (ts : List Token) :
    ∀ st st', replayFold ts (some st) = some st' → st ≠ [] → st' ≠ [] := by
  induction ts with
  | nil =>
    intro st st' h hne
    simp [replayFold] at h
    subst h
    exact hne
  | cons t ts ih =>
    intro st st' h hne
    have hcons : replayFold (t :: ts) (some st) =
        replayFold ts (replayStep (some st) t) := rfl
    rw [hcons] at h
    cases hstep : replayStep (some st) t with
    | none => rw [hstep, replayFold_none] at h; exact absurd h (by simp)
    | some st2 =>
      rw [hstep] at h
      apply ih st2 st' h
      rcases t with ⟨ty, a, b⟩
      cases ty
      case Indent =>
        cases st with
        | nil => simp [replayStep] at hstep
        | cons sh stl =>
          simp only [replayStep] at hstep
          split at hstep
          · simp only [Option.some.injEq] at hstep
            subst hstep
            simp
          · simp at hstep
      case Outdent =>
        cases st with
        | nil => simp [replayStep] at hstep
        | cons sh stl =>
          cases stl with
          | nil => simp [replayStep] at hstep
          | cons s2 stl2 =>
            simp only [replayStep, Option.some.injEq] at hstep
            subst hstep
            simp
      all_goals
        simp only [replayStep, Option.some.injEq] at hstep
        subst hstep
        exact hne

/-- On every input, the full token sequence of `Lexer::tokenize` replays
from the seed stack `[0]` to some nonempty stack. -/
theorem tokenize_replay (src : List Char) :
    ∃ s, replayFold (tokenize src).tokens (some [0]) = some s ∧ s ≠ [] := by
  by_cases hp :
      ("doctype html".toList).isPrefixOf (src.takeWhile (fun x => x != '\n'))
        = true
  · simp only [tokenize, hp, if_true]
    rcases hcl : consume_line 0 src with ⟨o1, pos1, cs1⟩
    exact tokenizeLoop_replay _ _ _ _ _ (by simp) rfl
  · simp only [tokenize, hp, Bool.false_eq_true, if_false]
    exact tokenizeLoop_replay _ _ _ _ _ (by simp) rfl

/-- Claim C1 amended: for every input, the token sequence produced by
`Lexer::tokenize` contains at least as many `Indent` tokens as `Outdent`
tokens (the surplus equals the unclosed indentation depth at end of
input). -/
theorem pugrs_C1_amended_outdent_le_indent (src : List Char) :
    countOutdent (tokenize src).tokens ≤ countIndent (tokenize src).tokens := by
  obtain ⟨s, hs, hne⟩ := tokenize_replay src
  have hlen := replayFold_length (tokenize src).tokens [0] s hs
  have hpos : 0 < s.length := List.length_pos.mpr hne
  simp only [List.length_cons, List.length_nil] at hlen
  omega

/-- Claim C2: the Indent/Outdent tokens produced by `Lexer::tokenize`,
replayed in order against a level stack initialised to `[0]`, never
underflow: the replay (`replayStep` checks that every `Indent` pushes a
level strictly larger than the stack top and that every `Outdent` pops
exactly one entry without consuming the seed) succeeds on every input; and
the pop loop repeats exactly until the stack top is at most the new line's
level (the second conjunct, a postcondition of the outdent loop). -/
theorem pugrs_C2_stack_discipline :
    (∀ src, (replayFold (tokenize src).tokens (some [0])).isSome = true) ∧
    (∀ level ind tok ind2 tok2 a,
      outdentRun level ind tok = (some ind2, tok2) →
      ind2.head? = some a → a ≤ level) := by
  constructor
  · intro src
    obtain ⟨s, hs, -⟩ := tokenize_replay src
    simp [hs]
  · intro level ind tok ind2 tok2 a h ha
    exact outdentRun_stop level ind tok ind2 tok2 h a ha

/-- Witness for C2: dedenting from stack `[2, 0]` to level 1 pops to the
seed entry `0`, which is at most the new level. -/
theorem pugrs_C2_witness : (0 : Nat) ≤ 1 :=
  pugrs_C2_stack_discipline.2 1 [2, 0] [] [0]
    [⟨.Outdent, 0, 0 + wrapSub 0 1⟩] 0 rfl rfl

/-- Every token appended by the attribute-list loop is an `Attr` token, so
the loop never adds a `Doctype` token. -/
theorem attrLoop_doctype (fuel : Nat) :
    ∀ pos tok cs, countDoctype (attrLoop fuel pos tok cs).tokens =
      countDoctype tok := by
  induction fuel with
  | zero => intro pos tok cs; rfl
  | succ f ih =>
    intro pos tok cs
    cases cs with
    | nil => rfl
    | cons c rest =>
      simp only [attrLoop]
      repeat' split
      all_goals
        first
          | rfl
          | (rw [ih]
             simp [add_token, countDoctype, List.countP_append, isDoctypeTok])
          | rw [ih]

/-- The outdent loop appends only `Outdent` tokens, never a `Doctype`. -/
theorem outdentRun_doctype (level : Nat) :
    ∀ ind tok, countDoctype (outdentRun level ind tok).2 = countDoctype tok := by
  intro ind
  induction ind with
  | nil => intro tok; rfl
  | cons sz tl ih =>
    intro tok
    simp only [outdentRun]
    repeat' split
    all_goals
      first
        | rfl
        | (rw [ih]
           simp [add_token, countDoctype, List.countP_append, isDoctypeTok])

/-- The scan loop never appends a `Doctype` token: the only `Doctype` ever
emitted is the one produced by the `doctype html` special case before the
loop starts. -/
theorem tokenizeLoop_doctype (fuel : Nat) :
    ∀ pos ind tok cs, countDoctype (tokenizeLoop fuel pos ind tok cs).tokens =
      countDoctype tok := by
  induction fuel with
  | zero => intro pos ind tok cs; rfl
  | succ f ih =>
    intro pos ind tok cs
    cases cs with
    | nil => rfl
    | cons c rest =>
      by_cases h1 : c.isAlpha
      · rcases hcn : consume_name pos (c :: rest) with ⟨onm, pos1, cs1⟩
        simp only [tokenizeLoop, h1, if_true, hcn]
        cases onm with
        | some name =>
          rw [ih]
          simp [add_token, countDoctype, List.countP_append, isDoctypeTok]
        | none => rfl
      · by_cases h2 : c == '\n'
        · rcases hcw : consume_while (fun ch => ch == ' ') (pos + 1) rest
            with ⟨lvl, pos2, cs2⟩
          simp only [tokenizeLoop, h1, h2, hcw, Bool.false_eq_true,
            if_false, if_true]
          have hnl : countDoctype (add_token tok .NewLine pos 1) =
              countDoctype tok := by
            simp [add_token, countDoctype, List.countP_append, isDoctypeTok]
          generalize (match lvl with | some s => s.length | none => 0) = L
          split_ifs with hgt hlt
          · rw [ih]
            simp [add_token, countDoctype, List.countP_append, isDoctypeTok]
          · have hod := outdentRun_doctype L ind (add_token tok .NewLine pos 1)
            rcases hor : outdentRun L ind (add_token tok .NewLine pos 1)
              with ⟨oi, otok⟩
            rw [hor] at hod
            cases oi with
            | some ind2 => rw [ih]; exact hod.trans hnl
            | none => exact hod.trans hnl
          · rw [ih]; exact hnl
        · by_cases h3 : c == ' ' || c == '|'
          · simp only [tokenizeLoop, h1, h2, h3, Bool.false_eq_true,
              if_false, if_true]
            by_cases h4 : c == '|'
            · simp only [h4, if_true]
              cases rest with
              | nil => rfl
              | cons c2 rest2 =>
                by_cases h5 : c2 == ' '
                · simp only [h5, if_true]
                  rcases hcw : consume_while (fun ch => ch != '\n')
                      (pos + 2) rest2 with ⟨ob, pos3, cs3⟩
                  cases ob with
                  | some body =>
                    rw [ih]
                    simp [add_token, countDoctype, List.countP_append,
                      isDoctypeTok]
                  | none => exact ih _ _ _ _
                · simp only [h5, Bool.false_eq_true, if_false]
                  rcases hcw : consume_while (fun ch => ch != '\n')
                      (pos + 1) (c2 :: rest2) with ⟨ob, pos3, cs3⟩
                  cases ob with
                  | some body =>
                    rw [ih]
                    simp [add_token, countDoctype, List.countP_append,
                      isDoctypeTok]
                  | none => exact ih _ _ _ _
            · simp only [h4, Bool.false_eq_true, if_false]
              rcases hcw : consume_while (fun ch => ch != '\n')
                  (pos + 1) rest with ⟨ob, pos3, cs3⟩
              cases ob with
              | some body =>
                rw [ih]
                simp [add_token, countDoctype, List.countP_append,
                  isDoctypeTok]
              | none => exact ih _ _ _ _
          · by_cases h5 : c == '#'
            · rcases hcn : consume_name (pos + 1) rest with ⟨onm, pos1, cs1⟩
              simp only [tokenizeLoop, h1, h2, h3, h5, Bool.false_eq_true,
                if_false, if_true, hcn]
              cases onm with
              | some name =>
                rw [ih]
                simp [add_token, countDoctype, List.countP_append,
                  isDoctypeTok]
              | none => exact ih _ _ _ _
            · by_cases h6 : c == '.'
              · rcases hcn : consume_name (pos + 1) rest with ⟨onm, pos1, cs1⟩
                simp only [tokenizeLoop, h1, h2, h3, h5, h6,
                  Bool.false_eq_true, if_false, if_true, hcn]
                cases onm with
                | some name =>
                  rw [ih]
                  simp [add_token, countDoctype, List.countP_append,
                    isDoctypeTok]
                | none => exact ih _ _ _ _
              · by_cases h7 : c == '('
                · rcases hal : attrLoop f (pos + 1) tok rest
                    with ⟨pos2, tok2, cs2, ex⟩
                  have hap := attrLoop_doctype f (pos + 1) tok rest
                  rw [hal] at hap
                  simp only [tokenizeLoop, h1, h2, h3, h5, h6, h7,
                    Bool.false_eq_true, if_false, if_true, hal]
                  cases ex with
                  | contOuter => rw [ih]; exact hap
                  | breakOuter => exact hap
                  | panicNow => exact hap
                · by_cases h8 : c == '/'
                  · simp only [tokenizeLoop, h1, h2, h3, h5, h6, h7, h8,
                      Bool.false_eq_true, if_false, if_true]
                    rw [ih]
                    simp [add_token, countDoctype, List.countP_append,
                      isDoctypeTok]
                  · by_cases h9 : c == ':'
                    · rcases hcw : consume_while (fun ch => ch == ' ')
                          (pos + 1) rest with ⟨ob, pos1, cs1⟩
                      simp only [tokenizeLoop, h1, h2, h3, h5, h6, h7, h8,
                        h9, Bool.false_eq_true, if_false, if_true, hcw]
                      rw [ih]
                      simp [add_token, countDoctype, List.countP_append,
                        isDoctypeTok]
                    · simp only [tokenizeLoop, h1, h2, h3, h5, h6, h7, h8,
                        h9, Bool.false_eq_true, if_false, if_true]

/-- The head of a list is the head of any of its nonempty prefixes. -/
theorem prefix_head (l1 l2 : List Token) (t : Token) (h : l1 <+: l2)
    (hh : l1.head? = some t) : l2.head? = some t := by
  obtain ⟨ext, rfl⟩ := h
  cases l1 with
  | nil => simp at hh
  | cons a l => simpa using hh

/-- Claim C7 amended: only a first line starting with the literal
`doctype html` is treated as a doctype line; it is consumed whole (no
re-scan) and the first emitted token is `Doctype("html")` spanning the first
line — in particular `lex("doctype html")` is exactly the single token
`Doctype("html")` with span `0..12`.  For every input whose first line does
not start with `doctype html` — in particular every `doctype <rest>` line
with another `<rest>` — no `Doctype` token is emitted anywhere (third
conjunct), and a first line `doctype <rest>` is instead re-scanned by the
ordinary rules, starting with `Tag("doctype")` (fourth conjunct; e.g.
`doctype foo` lexes as `Tag("doctype")` then `Text("foo")`, the
counterexample theorem). -/
theorem pugrs_C7_amended_doctype_html_only :
    (∀ src : List Char, ("doctype html".toList).isPrefixOf
        (src.takeWhile (fun x => x != '\n')) = true →
      (tokenize src).tokens.head? =
        some ⟨.Doctype "html", 0,
          (src.takeWhile (fun x => x != '\n')).length⟩) ∧
    tokenize ("doctype html".toList) =
      ⟨[⟨.Doctype "html", 0, 12⟩], 12, [0], false⟩ ∧
    (∀ src : List Char, ("doctype html".toList).isPrefixOf
        (src.takeWhile (fun x => x != '\n')) = false →
      countDoctype (tokenize src).tokens = 0) ∧
    (∀ tl : List Char, ("doctype html".toList).isPrefixOf
        ((("doctype ".toList) ++ tl).takeWhile (fun x => x != '\n')) = false →
      (tokenize (("doctype ".toList) ++ tl)).tokens.head? =
        some ⟨.Tag "doctype", 0, 7⟩) := by
  refine ⟨?_, rfl, ?_, ?_⟩
  · intro src hp
    simp only [tokenize, hp, if_true]
    rcases hcl : consume_line 0 src with ⟨o1, pos1, cs1⟩
    obtain ⟨ext, hext⟩ := tokenizeLoop_tokens_mono (src.length + 1) pos1 [0]
      (add_token [] (.Doctype "html") 0
        (src.takeWhile (fun x => x != '\n')).length) cs1
    rw [← hext]
    simp [add_token]
  · intro src hp
    simp only [tokenize, hp, Bool.false_eq_true, if_false]
    rw [tokenizeLoop_doctype]
    rfl
  · intro tl hp
    simp only [tokenize, hp, Bool.false_eq_true, if_false]
    have hsrc : ("doctype ".toList) ++ tl =
        'd' :: 'o' :: 'c' :: 't' :: 'y' :: 'p' :: 'e' :: ' ' :: tl := rfl
    rw [hsrc]
    have hd : ('d'.isAlpha) = true := rfl
    have hcn : consume_name 0
        ('d' :: 'o' :: 'c' :: 't' :: 'y' :: 'p' :: 'e' :: ' ' :: tl) =
        (some ['d', 'o', 'c', 't', 'y', 'p', 'e'], 7, ' ' :: tl) := rfl
    generalize
      ('d' :: 'o' :: 'c' :: 't' :: 'y' :: 'p' :: 'e' :: ' ' :: tl).length = F
    simp only [tokenizeLoop, hd, if_true, hcn]
    exact prefix_head _ _ _
      (tokenizeLoop_tokens_mono _ _ _ _ _) rfl

/-- Witness for C7: the input `doctype html` itself starts with the doctype
token spanning its whole first line. -/
theorem pugrs_C7_witness :
    (tokenize ("doctype html".toList)).tokens.head? =
      some ⟨.Doctype "html", 0,
        (("doctype html".toList).takeWhile (fun x => x != '\n')).length⟩ :=
  pugrs_C7_amended_doctype_html_only.1 ("doctype html".toList) rfl
